import Mathlib

/-
Verification of the task dependency scheduler and dual-representation state
synchronizer of this repository, together with the configuration loader
(core/settings.py) and the core data types (core/types.py).
-/

set_option maxHeartbeats 1000000
set_option maxRecDepth 100000

namespace RagMcp

/-- Task status: one of pending, in_progress, completed (spec section 3). -/
inductive Status
| pending
| in_progress
| completed
  deriving DecidableEq

/-- Modelled from the spec: the Task record of the data model (spec section 3).
The scheduler, resolver, synchronizer and recorder sources are not present in
the repository snapshot, so the Task record is taken from the spec data model:
id, title, file, status, phase, dependencies, documented. -/
structure Task where
  id : String
  title : String
  file : String
  status : Status
  phase : String
  dependencies : List String
  acceptance_criteria : String
  estimated_hours : String
  documented : Bool
  deriving DecidableEq

/-- Modelled from the spec: direct lookup findById (spec section 4.3). -/
def findById (tasks : List Task) (id : String) : Option Task :=
  tasks.find? (fun t => t.id == id)

/-- Modelled from the spec: the Dependency Resolver isEligible (spec section
4.2): a task with no dependencies is eligible; otherwise every dependency id
must resolve to an existing task whose status is completed; an unresolved id
counts as unsatisfied (fail closed). -/
def isEligible (tasks : List Task) (t : Task) : Bool :=
  t.dependencies.all (fun d =>
    match findById tasks d with
    | some dep => decide (dep.status = Status.completed)
    | none => false)

/-- Modelled from the spec: the Scheduler findNext (spec section 4.3): first
the in_progress tasks in stable document order whose dependencies are
satisfied, else the pending ones, else none. -/
def findNext (tasks : List Task) : Option Task :=
  match tasks.find? (fun t => decide (t.status = Status.in_progress) && isEligible tasks t) with
  | some t => some t
  | none => tasks.find? (fun t => decide (t.status = Status.pending) && isEligible tasks t)

/-- Sample task for the scheduling scenarios (completed, no dependencies). -/
def basicTask1 : Task :=
  { id := "task-001", title := "Alpha", file := "a.py", status := Status.completed,
    phase := "Phase 1", dependencies := [], acceptance_criteria := "ok", estimated_hours := "1", documented := false }

/-- Sample task depending on task-001. -/
def basicTask2 : Task :=
  { id := "task-002", title := "Beta", file := "b.py", status := Status.pending,
    phase := "Phase 1", dependencies := ["task-001"], acceptance_criteria := "ok", estimated_hours := "1", documented := false }

/-- Sample task with a dangling dependency. -/
def basicTask3 : Task :=
  { id := "task-003", title := "Gamma", file := "c.py", status := Status.pending,
    phase := "Phase 1", dependencies := ["task-999"], acceptance_criteria := "ok", estimated_hours := "1", documented := false }

/-- Sample task collection for the basic scheduling scenario. -/
def basicTasks : List Task := [basicTask1, basicTask2, basicTask3]

/-- Sample pending task that appears earlier in the document. -/
def schedTask4 : Task :=
  { id := "task-004", title := "Delta", file := "d.py", status := Status.pending,
    phase := "Phase 2", dependencies := [], acceptance_criteria := "ok", estimated_hours := "1", documented := false }

/-- Sample in_progress task that appears later in the document. -/
def schedTask5 : Task :=
  { id := "task-005", title := "Epsilon", file := "e.py", status := Status.in_progress,
    phase := "Phase 2", dependencies := [], acceptance_criteria := "ok", estimated_hours := "1", documented := false }

/-- Sample task collection for the priority scenario. -/
def schedTasks : List Task := [schedTask4, schedTask5]

/-- Modelled from the spec: one line of the Specification Document (spec
sections 3 and 6): a five column task-table row (checkbox, title, file, hours,
acceptance), a section heading, a milestone marker, a progress-tracking table
row keyed by phase with a status cell and a free-text note column, or free
text. -/
inductive Line
| row (checkbox title file hours acceptance : String)
| heading (title : String)
| milestone (title : String)
| progress (phase status note : String)
| text (s : String)
  deriving DecidableEq

/-- A Specification Document is an ordered list of lines. -/
abbrev Document := List Line

/-- Modelled from the spec: the row-locate step of setStatus (spec section
4.4): a line matches when it is a task row whose title and file both equal the
given pair exactly. -/
def matchesRow (title file : String) : Line → Bool
| Line.row _ t f _ _ => t == title && f == file
| _ => false

/-- Modelled from the spec: the checkbox glyph written for each status (spec
section 4.1): unchecked for pending, tilde for in_progress, x for completed. -/
def glyphOf : Status → String
| Status.pending => " "
| Status.in_progress => "~"
| Status.completed => "x"

/-- Modelled from the spec: replace only the checkbox glyph portion of a task
row, leaving all other columns identical (spec section 4.4 step 2). -/
def patchRow (s : Status) : Line → Line
| Line.row _ t f h a => Line.row (glyphOf s) t f h a
| l => l

/-- Modelled from the spec: the Task Index aggregate (spec section 3): the
Task collection plus redundant counters total, completed, in_progress,
pending. -/
structure TaskIndex where
  tasks : List Task
  total : Nat
  completed : Nat
  in_progress : Nat
  pending : Nat
  deriving DecidableEq

/-- Number of tasks in a collection holding a given status. -/
def countStatus (tasks : List Task) (s : Status) : Nat :=
  (tasks.filter (fun t => decide (t.status = s))).length

/-- Modelled from the spec: recompute the three aggregate counters from
scratch over the Task collection (spec sections 3 and 4.4 step 3). -/
def recomputeIndex (tasks : List Task) : TaskIndex :=
  { tasks := tasks
    total := tasks.length
    completed := countStatus tasks Status.completed
    in_progress := countStatus tasks Status.in_progress
    pending := countStatus tasks Status.pending }

/-- Modelled from the spec: update the status field of the matching task in
the Task Index collection (spec section 4.4 step 3). -/
def setTaskStatus (tasks : List Task) (id : String) (s : Status) : List Task :=
  tasks.map (fun u => if u.id == id then { u with status := s } else u)

/-- Tasks of the Task Index collection belonging to the given phase. -/
def tasksOfPhase (tasks : List Task) (phase : String) : List Task :=
  tasks.filter (fun t => t.phase == phase)

/-- Modelled from the spec: the derived progress status of a phase (spec
section 4.4 step 4): done when the completed count equals the phase total,
in-progress when any task of the phase is completed or in_progress, else
not-started. -/
def phaseProgress (tasks : List Task) (phase : String) : String :=
  if countStatus (tasksOfPhase tasks phase) Status.completed = (tasksOfPhase tasks phase).length
    then "done"
  else if (tasksOfPhase tasks phase).any (fun t =>
      decide (t.status = Status.completed) || decide (t.status = Status.in_progress))
    then "in-progress"
  else "not-started"

/-- Modelled from the spec: the note column of a progress-tracking row after
a status change (spec section 4.4 step 4): the free-text content is
preserved, with a fractional completion annotation appended when the phase is
partially done. -/
def progressNote (tasks : List Task) (phase : String) (note : String) : String :=
  let comp := countStatus (tasksOfPhase tasks phase) Status.completed
  let tot := (tasksOfPhase tasks phase).length
  if 0 < comp && comp < tot then
    note ++ " (" ++ toString comp ++ "/" ++ toString tot ++ ")"
  else note

/-- Modelled from the spec: patch a progress-tracking table row with the
recomputed phase status and annotated note, leaving every other kind of line
unchanged (spec section 4.4 step 4). -/
def patchProgressLine (tasks : List Task) : Line → Line
| Line.progress ph _ note =>
  Line.progress ph (phaseProgress tasks ph) (progressNote tasks ph note)
| l => l

/-- Result of a synchronizer operation: success flag plus the two persisted
artifacts (document and index) after the call. -/
structure SyncResult where
  ok : Bool
  doc : Option Document
  index : TaskIndex
  deriving DecidableEq

/-- Modelled from the spec: the State Synchronizer setStatus (spec section
4.4): fail with no change when the document is absent or the title/file pair
does not match exactly one row; otherwise patch only the checkbox glyph of
the matching row (step 2), set the status of the matching task and recompute
the aggregate counters from scratch (step 3), and patch the rows of the
progress-tracking table with the per phase recomputed progress status and
annotated note (step 4). -/
def setStatus (doc : Option Document) (idx : TaskIndex) (t : Task) (newStatus : Status) :
    SyncResult :=
  match doc with
  | none => ⟨false, none, idx⟩
  | some d =>
    if (d.filter (matchesRow t.title t.file)).length = 1 then
      ⟨true,
       some ((d.map (fun l => if matchesRow t.title t.file l then patchRow newStatus l else l)).map
         (patchProgressLine (setTaskStatus idx.tasks t.id newStatus))),
       recomputeIndex (setTaskStatus idx.tasks t.id newStatus)⟩
    else ⟨false, some d, idx⟩

/-- Sample specification document for the synchronizer scenarios. -/
def sampleDoc : Document :=
  [Line.heading "Phase 1", Line.text "table header",
   Line.row " " "Beta" "b.py" "2" "ok",
   Line.row "x" "Alpha" "a.py" "1" "ok"]

/-- Sample document after patching the Beta row to completed. -/
def samplePatchedDoc : Document :=
  [Line.heading "Phase 1", Line.text "table header",
   Line.row "x" "Beta" "b.py" "2" "ok",
   Line.row "x" "Alpha" "a.py" "1" "ok"]

/-- Sample Task Index holding the basic task collection. -/
def sampleIndex : TaskIndex := recomputeIndex basicTasks

/-- Task of the progress-table scenario: the only task of Phase 1. -/
def progressTask : Task :=
  { id := "task-101", title := "Beta", file := "b.py", status := Status.pending,
    phase := "Phase 1", dependencies := [], acceptance_criteria := "ok",
    estimated_hours := "2", documented := false }

/-- Document of the progress-table scenario: it holds a progress-tracking
table row for Phase 1 besides the single matching task row. -/
def progressDoc : Document :=
  [Line.heading "Phase 1",
   Line.row " " "Beta" "b.py" "2" "ok",
   Line.progress "Phase 1" "not-started" "note"]

/-- Task Index of the progress-table scenario. -/
def progressIndex : TaskIndex := recomputeIndex [progressTask]

/-- Modelled from the spec: the unique completion-entry marker text of a task
(spec section 4.5): a fixed marker derived from the stable task id. -/
def marker (t : Task) : String := "completion-entry " ++ t.id

/-- A line carrying the completion-entry marker text of the given task. -/
def isMarkerLine (t : Task) : Line → Bool
| Line.text s => s == marker t
| _ => false

/-- A milestone marker line. -/
def isMilestoneLine : Line → Bool
| Line.milestone _ => true
| _ => false

/-- A section heading line. -/
def isHeadingLine : Line → Bool
| Line.heading _ => true
| _ => false

/-- The heading line of the given phase. -/
def isPhaseHeading (phase : String) : Line → Bool
| Line.heading s => s == phase
| _ => false

/-- Modelled from the spec: the insertion offset of a completion entry (spec
section 4.5 step 3): after the phase heading, immediately before the first
milestone marker; if none, before the next section heading; if none, at the
document end. -/
def insertionPoint (d : Document) (phase : String) : Nat :=
  match d.findIdx? (isPhaseHeading phase) with
  | none => d.length
  | some i =>
    match (d.drop (i + 1)).findIdx? isMilestoneLine with
    | some j => i + 1 + j
    | none =>
      match (d.drop (i + 1)).findIdx? isHeadingLine with
      | some j => i + 1 + j
      | none => d.length

/-- Modelled from the spec: set documented to true on the matching Task Index
entry (spec section 4.5 step 5). -/
def setDocumented (tasks : List Task) (id : String) : List Task :=
  tasks.map (fun u => if u.id == id then { u with documented := true } else u)

/-- The documented flag stored in the index for a given task id (false when
the id resolves to no task). -/
def documentedOf (tasks : List Task) (id : String) : Bool :=
  match findById tasks id with
  | some u => u.documented
  | none => false

/-- Result of a Completion Recorder operation: success flag plus the two
persisted artifacts after the call. -/
structure RecordResult where
  ok : Bool
  doc : Document
  index : TaskIndex
  deriving DecidableEq

/-- Modelled from the spec: the Completion Recorder recordCompletion (spec
section 4.5): a no-op success when the index already marks the task as
documented or the document already contains its unique marker text; otherwise
splice the rendered entry at the computed insertion offset and set documented
to true on the matching index entry. -/
def recordCompletion (d : Document) (idx : TaskIndex) (t : Task) : RecordResult :=
  if documentedOf idx.tasks t.id || d.any (isMarkerLine t) then ⟨true, d, idx⟩
  else
    ⟨true,
     d.take (insertionPoint d t.phase) ++ Line.text (marker t) :: d.drop (insertionPoint d t.phase),
     { idx with tasks := setDocumented idx.tasks t.id }⟩

/-- Modelled from the spec: checkbox glyph to status mapping of the Spec
Parser (spec section 4.1): x maps to completed, tilde to in_progress, and any
other glyph (the unchecked glyph included) to pending. -/
def parseStatus (glyph : String) : Status :=
  if glyph == "x" then Status.completed
  else if glyph == "~" then Status.in_progress
  else Status.pending

/-- Segment prefix test over character lists. -/
def startsSeg : List Char → List Char → Bool
| [], _ => true
| _ :: _, [] => false
| a :: as, b :: bs => (a.toNat == b.toNat) && startsSeg as bs

/-- Contiguous segment containment over character lists. -/
def hasSeg (needle : List Char) : List Char → Bool
| [] => startsSeg needle []
| b :: bs => startsSeg needle (b :: bs) || hasSeg needle bs

/-- Modelled from the spec: a heading updates the current phase when its text
contains the phase keyword (spec section 4.1). -/
def mentionsPhase (s : String) : Bool := hasSeg "Phase".toList s.toList

/-- Three digit zero padded task number. -/
def pad3 (n : Nat) : String :=
  if n < 10 then "00" ++ toString n
  else if n < 100 then "0" ++ toString n
  else toString n

/-- Modelled from the spec: the line scan of the Spec Parser (spec section
4.1): headings update the current phase when they contain the phase keyword,
table rows become Tasks with sequentially assigned ids and the glyph mapped
status, and all other lines are skipped. -/
def parseLines : List Line → String → Nat → List Task
| [], _, _ => []
| Line.heading s :: rest, phase, n =>
  parseLines rest (if mentionsPhase s then s else phase) n
| Line.row cb ti fi ho ac :: rest, phase, n =>
  { id := "task-" ++ pad3 n, title := ti, file := fi, status := parseStatus cb,
    phase := phase, dependencies := [], documented := false,
    estimated_hours := ho, acceptance_criteria := ac } :: parseLines rest phase (n + 1)
| _ :: rest, phase, n => parseLines rest phase n

/-- Modelled from the spec: the Spec Parser on an optional document (spec
section 4.1 failure modes): a missing document reports zero tasks instead of
raising. -/
def parseTasks : Option Document → List Task
| none => []
| some d => parseLines d "" 1

/-- Checkbox glyphs of the task rows of a document, in document order. -/
def rowGlyphs : List Line → List String
| [] => []
| Line.row cb _ _ _ _ :: rest => cb :: rowGlyphs rest
| _ :: rest => rowGlyphs rest

/-- A Python value as stored in the loaded YAML configuration of
core/settings.py: None, booleans, integers, strings, lists, and string keyed
dictionaries. -/
inductive Value
| vnull
| vbool (b : Bool)
| vint (n : Int)
| vstr (s : String)
| vlist (l : List Value)
| vdict (d : List (String × Value))

/-- Lookup of a key in a dictionary, as dict.get of Python: the value of the
first entry with the given key, or nothing. -/
def dictLookup (d : List (String × Value)) (k : String) : Option Value :=
  (d.find? (fun p => p.1 == k)).map Prod.snd

/-- The loop of Settings.get (core/settings.py lines 241 to 250): walk the
key path, descending only when the current value is a dictionary holding the
segment, and return the default as soon as either check fails. -/
def getLoop (default : Value) : Value → List String → Value
| v, [] => v
| v, k :: ks =>
  match v with
  | Value.vdict d =>
    match dictLookup d k with
    | some v2 => getLoop default v2 ks
    | none => default
  | _ => default

/-- Settings.get (core/settings.py lines 231 to 250): split the key on dots
and walk the configuration dictionary with the loop above. -/
def Settings.get (config : List (String × Value)) (key : String) (default : Value) : Value :=
  getLoop default (Value.vdict config) (key.splitOn ".")

/-- Nested lookup along a path of dictionary keys, following the words of
claim C8: the value reached by following each segment through dictionaries,
or nothing when a segment is absent or an intermediate value is not a
dictionary. -/
def getPath : Value → List String → Option Value
| v, [] => some v
| Value.vdict d, k :: ks =>
  match dictLookup d k with
  | some v2 => getPath v2 ks
  | none => none
| _, _ :: _ => none

/-- The startswith underscore check of the Python source, over the character
list of the name: true when the first character is an underscore. -/
def startsWithUnderscore (name : String) : Bool :=
  match name.toList with
  | [] => false
  | c :: _ => c.toNat == 95

/-- Result of an attribute or item access on a configuration section proxy of
core/settings.py: an AttributeError, a plain value (None is vnull), or a
nested section wrapped in a new proxy. -/
inductive ProxyVal
| attrError
| val (v : Value)
| sub (d : List (String × Value))

/-- The getattr access of _SectionProxy (core/settings.py lines 273 to 289):
underscore names raise AttributeError; otherwise the value of data.get(name),
wrapped in a new proxy when it is a dictionary, and None when absent. -/
def SectionProxy.getattr (data : List (String × Value)) (name : String) : ProxyVal :=
  if startsWithUnderscore name then ProxyVal.attrError
  else
    match dictLookup data name with
    | some (Value.vdict d) => ProxyVal.sub d
    | some v => ProxyVal.val v
    | none => ProxyVal.val Value.vnull

/-- The getitem access of _SectionProxy (core/settings.py lines 291 to 304):
the value of data.get(key), wrapped in a new proxy when it is a dictionary,
and None when absent; no exception path. -/
def SectionProxy.getitem (data : List (String × Value)) (key : String) : ProxyVal :=
  match dictLookup data key with
  | some (Value.vdict d) => ProxyVal.sub d
  | some v => ProxyVal.val v
  | none => ProxyVal.val Value.vnull

/-- Sample configuration section for the proxy access scenarios. -/
def sampleConfig : List (String × Value) :=
  [("llm", Value.vdict [("provider", Value.vstr "azure")]), ("timeout", Value.vint 30)]

/-- The 32 bit word modulus used throughout SHA-256. -/
def w32 : Nat := 4294967296

/-- Bitwise combination of two naturals over a bounded number of bits. -/
def bitCombine (f : Bool → Bool → Bool) : Nat → Nat → Nat → Nat
| 0, _, _ => 0
| fuel + 1, a, b =>
  (if f (a % 2 == 1) (b % 2 == 1) then 1 else 0) + 2 * bitCombine f fuel (a / 2) (b / 2)

/-- Bitwise exclusive or on 32 bit words. -/
def xor32 (a b : Nat) : Nat := bitCombine (fun x y => x != y) 32 a b

/-- Bitwise conjunction on 32 bit words. -/
def and32 (a b : Nat) : Nat := bitCombine (fun x y => x && y) 32 a b

/-- Bitwise complement on 32 bit words. -/
def not32 (a : Nat) : Nat := (w32 - 1) - a % w32

/-- Right rotation of a 32 bit word. -/
def rotr32 (n x : Nat) : Nat := (x % w32 / 2 ^ n + x % w32 % 2 ^ n * 2 ^ (32 - n)) % w32

/-- The small sigma0 function of SHA-256. -/
def sigma0 (x : Nat) : Nat := xor32 (xor32 (rotr32 7 x) (rotr32 18 x)) (x % w32 / 8)

/-- The small sigma1 function of SHA-256. -/
def sigma1 (x : Nat) : Nat := xor32 (xor32 (rotr32 17 x) (rotr32 19 x)) (x % w32 / 1024)

/-- The big sigma0 function of SHA-256. -/
def bigSigma0 (x : Nat) : Nat := xor32 (xor32 (rotr32 2 x) (rotr32 13 x)) (rotr32 22 x)

/-- The big sigma1 function of SHA-256. -/
def bigSigma1 (x : Nat) : Nat := xor32 (xor32 (rotr32 6 x) (rotr32 11 x)) (rotr32 25 x)

/-- The choice function of SHA-256. -/
def chN (x y z : Nat) : Nat := xor32 (and32 x y) (and32 (not32 x) z)

/-- The majority function of SHA-256. -/
def majN (x y z : Nat) : Nat := xor32 (xor32 (and32 x y) (and32 x z)) (and32 y z)

/-- The 64 round constants of SHA-256. -/
def shaK : List Nat :=
  [1116352408, 1899447441, 3049323471, 3921009573,
   961987163, 1508970993, 2453635748, 2870763221,
   3624381080, 310598401, 607225278, 1426881987,
   1925078388, 2162078206, 2614888103, 3248222580,
   3835390401, 4022224774, 264347078, 604807628,
   770255983, 1249150122, 1555081692, 1996064986,
   2554220882, 2821834349, 2952996808, 3210313671,
   3336571891, 3584528711, 113926993, 338241895,
   666307205, 773529912, 1294757372, 1396182291,
   1695183700, 1986661051, 2177026350, 2456956037,
   2730485921, 2820302411, 3259730800, 3345764771,
   3516065817, 3600352804, 4094571909, 275423344,
   430227734, 506948616, 659060556, 883997877,
   958139571, 1322822218, 1537002063, 1747873779,
   1955562222, 2024104815, 2227730452, 2361852424,
   2428436474, 2756734187, 3204031479, 3329325298]

/-- The initial hash state of SHA-256. -/
def shaH0 : List Nat :=
  [1779033703, 3144134277, 1013904242, 2773480762,
   1359893119, 2600822924, 528734635, 1541459225]

/-- Extension of the 16 word message schedule to 64 words. -/
def extendSchedule : Nat → List Nat → List Nat
| 0, w => w
| fuel + 1, w =>
  let t := w.length
  let next := (sigma1 (w.getD (t - 2) 0) + w.getD (t - 7) 0 +
    sigma0 (w.getD (t - 15) 0) + w.getD (t - 16) 0) % w32
  extendSchedule fuel (w ++ [next])

/-- One round of the SHA-256 compression loop over the eight word state. -/
def roundStep (st : List Nat) (kw : Nat × Nat) : List Nat :=
  match st with
  | [a, b, c, d, e, f, g, h] =>
    let t1 := (h + bigSigma1 e + chN e f g + kw.1 + kw.2) % w32
    let t2 := (bigSigma0 a + majN a b c) % w32
    [(t1 + t2) % w32, a, b, c, (d + t1) % w32, e, f, g]
  | other => other

/-- The SHA-256 compression function on one 16 word block. -/
def compress (hs : List Nat) (block : List Nat) : List Nat :=
  let w := extendSchedule 48 block
  let st := (shaK.zip w).foldl roundStep hs
  [(hs.getD 0 0 + st.getD 0 0) % w32, (hs.getD 1 0 + st.getD 1 0) % w32,
   (hs.getD 2 0 + st.getD 2 0) % w32, (hs.getD 3 0 + st.getD 3 0) % w32,
   (hs.getD 4 0 + st.getD 4 0) % w32, (hs.getD 5 0 + st.getD 5 0) % w32,
   (hs.getD 6 0 + st.getD 6 0) % w32, (hs.getD 7 0 + st.getD 7 0) % w32]

/-- Big endian byte serialisation of a natural into a fixed number of bytes. -/
def toBytesBE : Nat → Nat → List Nat
| 0, _ => []
| k + 1, n => toBytesBE k (n / 256) ++ [n % 256]

/-- SHA-256 padding: append the 0x80 byte, zeros to 56 mod 64, and the bit
length as eight big endian bytes. -/
def padMessage (msg : List Nat) : List Nat :=
  msg ++ [128] ++ List.replicate ((64 - (msg.length + 9) % 64) % 64) 0 ++
    toBytesBE 8 (8 * msg.length)

/-- Big endian grouping of bytes into 32 bit words. -/
def bytesToWords : List Nat → List Nat
| b0 :: b1 :: b2 :: b3 :: rest =>
  (((b0 * 256 + b1) * 256 + b2) * 256 + b3) :: bytesToWords rest
| _ => []

/-- Grouping of a word list into 16 word blocks, driven by a fuel bound. -/
def chunkWords : Nat → List Nat → List (List Nat)
| 0, _ => []
| _, [] => []
| fuel + 1, ws => ws.take 16 :: chunkWords fuel (ws.drop 16)

/-- The SHA-256 digest of a byte message, as eight 32 bit words. -/
def sha256Words (msg : List Nat) : List Nat :=
  let ws := bytesToWords (padMessage msg)
  (chunkWords ws.length ws).foldl compress shaH0

/-- Lowercase hexadecimal character of a nibble. -/
def hexChar (n : Nat) : Char :=
  if n < 10 then Char.ofNat (48 + n) else Char.ofNat (87 + n)

/-- The two lowercase hexadecimal characters of one byte. -/
def byteToHex (b : Nat) : List Char := [hexChar (b / 16 % 16), hexChar (b % 16)]

/-- The lowercase hexadecimal digest string of a byte message, as the
hexdigest method of hashlib.sha256 in the source. -/
def sha256Hex (msg : List Nat) : String :=
  String.mk ((((sha256Words msg).map (toBytesBE 4)).flatten.map byteToHex).flatten)

/-- UTF-8 encoding of one character, as str.encode of Python. -/
def utf8Char (c : Char) : List Nat :=
  let n := c.toNat
  if n < 128 then [n]
  else if n < 2048 then [192 + n / 64, 128 + n % 64]
  else if n < 65536 then [224 + n / 4096, 128 + n / 64 % 64, 128 + n % 64]
  else [240 + n / 262144, 128 + n / 4096 % 64, 128 + n / 64 % 64, 128 + n % 64]

/-- UTF-8 encoding of a string, as the encode call in Chunk post init. -/
def utf8Encode (s : String) : List Nat := (s.toList.map utf8Char).flatten

/-- A lowercase hexadecimal digit character. -/
def isHexDigitChar (c : Char) : Bool :=
  (48 ≤ c.toNat && c.toNat ≤ 57) || (97 ≤ c.toNat && c.toNat ≤ 102)

/-- Chunk metadata of core/types.py (lines 124 to 155), with timestamps as
integers and custom fields as a dictionary value. -/
structure ChunkMetadata where
  chunk_id : String
  doc_id : String
  source : String
  chunk_index : Nat
  start_offset : Nat
  end_offset : Nat
  created_at : Int
  title : Option String
  summary : Option String
  tags : List String
  page_num : Option Nat
  section_path : List String
  image_refs : List String
  custom_fields : List (String × Value)

/-- A Chunk of core/types.py (lines 186 to 208) after construction: the post
init hook guarantees content_hash is always set. -/
structure Chunk where
  content : String
  metadata : ChunkMetadata
  content_hash : String

/-- Construction of a Chunk through the dataclass post init hook
(core/types.py lines 202 to 208): when no content hash is supplied, it is set
to the SHA-256 hex digest of the UTF-8 encoding of the content. -/
def Chunk.make (content : String) (metadata : ChunkMetadata) (hash? : Option String) : Chunk :=
  { content := content
    metadata := metadata
    content_hash :=
      match hash? with
      | some h => h
      | none => sha256Hex (utf8Encode content) }

/-- Splitting lemma for find?: a successful find? splits the list around the
first element satisfying the predicate. -/
theorem find?_some_split {α : Type} (p : α → Bool) (l : List α) (a : α)
    (h : l.find? p = some a) :
    ∃ l1 l2, l = l1 ++ a :: l2 ∧ p a = true ∧ ∀ x ∈ l1, p x = false := by
  induction l with
  | nil => exact absurd h (by simp)
  | cons b bs ih =>
    by_cases hpb : p b = true
    · rw [List.find?_cons_of_pos _ hpb] at h
      cases h
      exact ⟨[], bs, rfl, hpb, by simp⟩
    · rw [List.find?_cons_of_neg _ (by simpa using hpb)] at h
      obtain ⟨l1, l2, hsplit, hpa, hl1⟩ := ih h
      refine ⟨b :: l1, l2, by rw [hsplit]; rfl, hpa, ?_⟩
      intro x hx
      rcases List.mem_cons.mp hx with rfl | hx
      · simpa using hpb
      · exact hl1 x hx

/-- Characterisation of isEligible: true exactly when every dependency id
resolves to a completed task. -/
theorem isEligible_eq_true_iff (tasks : List Task) (t : Task) :
    isEligible tasks t = true ↔
      ∀ d ∈ t.dependencies, ∃ dt, findById tasks d = some dt ∧ dt.status = Status.completed := by
  unfold isEligible
  rw [List.all_eq_true]
  constructor
  · intro h d hd
    have := h d hd
    cases hfd : findById tasks d with
    | none => rw [hfd] at this; exact absurd this (by simp)
    | some dt =>
      rw [hfd] at this
      exact ⟨dt, rfl, of_decide_eq_true this⟩
  · intro h d hd
    obtain ⟨dt, hfd, hst⟩ := h d hd
    rw [hfd]
    exact decide_eq_true hst

/-- Claim C6: isEligible is true iff the task has no dependencies or every
dependency id resolves to an existing task whose status is completed; a
dependency id that resolves to no task is treated as unsatisfied (fail
closed), so the dependent task is reported as blocked. -/
theorem isEligible_correct (tasks : List Task) (t : Task) :
    (isEligible tasks t = true ↔
      ∀ d ∈ t.dependencies, ∃ dt, findById tasks d = some dt ∧ dt.status = Status.completed) ∧
    (t.dependencies = [] → isEligible tasks t = true) ∧
    (∀ d ∈ t.dependencies, findById tasks d = none → isEligible tasks t = false) := by
  refine ⟨isEligible_eq_true_iff tasks t, ?_, ?_⟩
  · intro hnil
    rw [isEligible_eq_true_iff]
    simp [hnil]
  · intro d hd hnone
    cases he : isEligible tasks t with
    | false => rfl
    | true =>
      obtain ⟨dt, hfd, _⟩ := (isEligible_eq_true_iff tasks t).mp he d hd
      rw [hnone] at hfd
      cases hfd

/-- Witness for claim C6: in the basic scenario the dangling dependency
task-999 makes task-003 ineligible. -/
theorem isEligible_correct_witness : isEligible basicTasks basicTask3 = false :=
  (isEligible_correct basicTasks basicTask3).2.2 "task-999" (by decide) (by decide)

/-- Claim C1: findNext returns the first document-order in_progress task whose
dependencies are all satisfied, else the first such pending task, and none
only when no in_progress or pending task is dependency-satisfied; it never
returns a task one of whose declared dependencies is not completed. -/
theorem findNext_correct (tasks : List Task) :
    (∀ t, findNext tasks = some t →
      t ∈ tasks ∧ isEligible tasks t = true ∧
      (∀ d ∈ t.dependencies, ∃ dt, findById tasks d = some dt ∧ dt.status = Status.completed) ∧
      ((t.status = Status.in_progress ∧
         ∃ l1 l2, tasks = l1 ++ t :: l2 ∧
           ∀ u ∈ l1, ¬(u.status = Status.in_progress ∧ isEligible tasks u = true)) ∨
       (t.status = Status.pending ∧
         (∀ u ∈ tasks, u.status = Status.in_progress → isEligible tasks u = false) ∧
         ∃ l1 l2, tasks = l1 ++ t :: l2 ∧
           ∀ u ∈ l1, ¬(u.status = Status.pending ∧ isEligible tasks u = true)))) ∧
    (findNext tasks = none →
      ∀ t ∈ tasks, (t.status = Status.in_progress ∨ t.status = Status.pending) →
        isEligible tasks t = false) := by
  constructor
  · intro t ht
    unfold findNext at ht
    cases h1 : tasks.find? (fun u => decide (u.status = Status.in_progress) && isEligible tasks u) with
    | some u =>
      rw [h1] at ht
      simp only [Option.some.injEq] at ht
      rw [ht] at h1
      obtain ⟨l1, l2, hsplit, hp, hl1⟩ := find?_some_split _ _ _ h1
      rw [Bool.and_eq_true] at hp
      obtain ⟨hstat, helig⟩ := hp
      have hstat2 : t.status = Status.in_progress := of_decide_eq_true hstat
      refine ⟨by rw [hsplit]; simp, helig, (isEligible_eq_true_iff tasks t).mp helig, ?_⟩
      refine Or.inl ⟨hstat2, l1, l2, hsplit, ?_⟩
      intro u hu hcon
      have := hl1 u hu
      rw [decide_eq_true hcon.1, hcon.2] at this
      cases this
    | none =>
      rw [h1] at ht
      simp only at ht
      obtain ⟨l1, l2, hsplit, hp, hl1⟩ := find?_some_split _ _ _ ht
      rw [Bool.and_eq_true] at hp
      obtain ⟨hstat, helig⟩ := hp
      have hstat2 : t.status = Status.pending := of_decide_eq_true hstat
      have hnoip : ∀ u ∈ tasks, u.status = Status.in_progress → isEligible tasks u = false := by
        intro u hu hus
        have hnp := List.find?_eq_none.mp h1 u hu
        cases he : isEligible tasks u with
        | false => rfl
        | true =>
          rw [decide_eq_true hus, he] at hnp
          exact absurd rfl hnp
      refine ⟨by rw [hsplit]; simp, helig, (isEligible_eq_true_iff tasks t).mp helig, ?_⟩
      refine Or.inr ⟨hstat2, hnoip, l1, l2, hsplit, ?_⟩
      intro u hu hcon
      have := hl1 u hu
      rw [decide_eq_true hcon.1, hcon.2] at this
      cases this
  · intro hnone t htmem hstat
    unfold findNext at hnone
    cases h1 : tasks.find? (fun u => decide (u.status = Status.in_progress) && isEligible tasks u) with
    | some u => rw [h1] at hnone; cases hnone
    | none =>
      rw [h1] at hnone
      simp only at hnone
      cases he : isEligible tasks t with
      | false => rfl
      | true =>
        rcases hstat with hs | hs
        · have := List.find?_eq_none.mp h1 t htmem
          rw [decide_eq_true hs, he] at this
          exact absurd rfl this
        · have := List.find?_eq_none.mp hnone t htmem
          rw [decide_eq_true hs, he] at this
          exact absurd rfl this

/-- Witness for claim C1: in the priority scenario findNext returns the
in_progress task task-005 even though a pending eligible task appears
earlier, and that task is an eligible member of the collection. -/
theorem findNext_correct_witness :
    schedTask5 ∈ schedTasks ∧ isEligible schedTasks schedTask5 = true ∧
      schedTask5.status = Status.in_progress := by
  have h := (findNext_correct schedTasks).1 schedTask5 (by decide)
  refine ⟨h.1, h.2.1, ?_⟩
  rcases h.2.2.2 with hc | hc
  · exact hc.1
  · exact absurd hc.1 (by decide)

/-- Splitting lemma for filter: a filter of length one splits the list around
the unique element satisfying the predicate. -/
theorem filter_length_one_split {α : Type} (p : α → Bool) (l : List α)
    (h : (l.filter p).length = 1) :
    ∃ l1 a l2, l = l1 ++ a :: l2 ∧ p a = true ∧
      (∀ x ∈ l1, p x = false) ∧ (∀ x ∈ l2, p x = false) := by
  induction l with
  | nil => simp at h
  | cons b bs ih =>
    by_cases hpb : p b = true
    · rw [List.filter_cons_of_pos hpb] at h
      simp only [List.length_cons, Nat.succ.injEq] at h
      have hnil : bs.filter p = [] := List.length_eq_zero.mp h
      have hall : ∀ x ∈ bs, p x = false := by
        intro x hx
        have hx2 := List.filter_eq_nil_iff.mp hnil x hx
        simpa using hx2
      exact ⟨[], b, bs, rfl, hpb, by simp, hall⟩
    · rw [List.filter_cons_of_neg (by simpa using hpb)] at h
      obtain ⟨l1, a, l2, hsplit, hpa, h1, h2⟩ := ih h
      refine ⟨b :: l1, a, l2, by rw [hsplit]; rfl, hpa, ?_, h2⟩
      intro x hx
      rcases List.mem_cons.mp hx with rfl | hx
      · simpa using hpb
      · exact h1 x hx

/-- Mapping a function that fixes every member of a list is the identity. -/
theorem map_eq_self_of_fix {α : Type} (f : α → α) (l : List α)
    (h : ∀ x ∈ l, f x = x) : l.map f = l := by
  induction l with
  | nil => rfl
  | cons b bs ih =>
    simp only [List.map_cons]
    rw [h b (by simp), ih (fun x hx => h x (List.mem_cons_of_mem b hx))]

/-- Total count of a task collection is the sum of the per-status counts. -/
theorem length_eq_countStatus_sum (l : List Task) :
    l.length = countStatus l Status.completed + countStatus l Status.in_progress +
      countStatus l Status.pending := by
  induction l with
  | nil => rfl
  | cons t ts ih =>
    unfold countStatus at *
    cases hs : t.status <;> simp [List.filter_cons, hs, List.length_cons] <;> omega

/-- Claim C2: after every successful setStatus call the stored aggregate
counters satisfy total = completed + in_progress + pending, and each stored
counter equals the count recomputed from scratch over the Task collection. -/
theorem setStatus_aggregates (doc : Option Document) (idx : TaskIndex) (t : Task) (s : Status)
    (d2 : Option Document) (idx2 : TaskIndex)
    (h : setStatus doc idx t s = ⟨true, d2, idx2⟩) :
    idx2.total = idx2.completed + idx2.in_progress + idx2.pending ∧
    idx2.total = idx2.tasks.length ∧
    idx2.completed = countStatus idx2.tasks Status.completed ∧
    idx2.in_progress = countStatus idx2.tasks Status.in_progress ∧
    idx2.pending = countStatus idx2.tasks Status.pending := by
  cases doc with
  | none => exact absurd h (by simp [setStatus])
  | some d =>
    simp only [setStatus] at h
    by_cases hc : (d.filter (matchesRow t.title t.file)).length = 1
    · rw [if_pos hc] at h
      simp only [SyncResult.mk.injEq] at h
      obtain ⟨-, -, hidx⟩ := h
      subst hidx
      exact ⟨(length_eq_countStatus_sum _).symm ▸ length_eq_countStatus_sum _, rfl, rfl, rfl, rfl⟩
    · rw [if_neg hc] at h
      simp at h

/-- Claim C3: setStatus fails exactly when the document is absent or the
title/file pair matches a number of rows other than one, and on failure both
the document and the Task Index are left completely unchanged. -/
theorem setStatus_failure (doc : Option Document) (idx : TaskIndex) (t : Task) (s : Status) :
    ((setStatus doc idx t s).ok = false →
      (setStatus doc idx t s).doc = doc ∧ (setStatus doc idx t s).index = idx) ∧
    ((setStatus doc idx t s).ok = false ↔
      doc = none ∨ ∃ d, doc = some d ∧ (d.filter (matchesRow t.title t.file)).length ≠ 1) := by
  cases doc with
  | none => simp [setStatus]
  | some d =>
    by_cases hc : (d.filter (matchesRow t.title t.file)).length = 1
    · simp [setStatus, hc]
    · simp [setStatus, hc]

/-- Claim C4 (amended): every successful setStatus call changes the document
only in the checkbox glyph of the single matching task row and in the rows of
the progress-tracking table: the document splits as a prefix, the matching
row, and a suffix; the matching row keeps its title, file, hours and
acceptance columns with only the glyph replaced; the prefix and suffix change
only at progress-tracking rows, which keep their phase key and note content
up to the recomputed status cell and appended annotation; every line of any
other kind is byte-identical before and after. -/
theorem setStatus_frame (d : Document) (idx : TaskIndex) (t : Task) (s : Status)
    (d2 : Document) (idx2 : TaskIndex)
    (h : setStatus (some d) idx t s = ⟨true, some d2, idx2⟩) :
    ∃ l1 l2 cb ho ac,
      d = l1 ++ Line.row cb t.title t.file ho ac :: l2 ∧
      d2 = l1.map (patchProgressLine (setTaskStatus idx.tasks t.id s)) ++
        Line.row (glyphOf s) t.title t.file ho ac ::
        l2.map (patchProgressLine (setTaskStatus idx.tasks t.id s)) ∧
      (∀ x ∈ l1, matchesRow t.title t.file x = false) ∧
      (∀ x ∈ l2, matchesRow t.title t.file x = false) ∧
      (∀ x : Line, (∀ ph st note, x ≠ Line.progress ph st note) →
        patchProgressLine (setTaskStatus idx.tasks t.id s) x = x) ∧
      (∀ ph st note,
        patchProgressLine (setTaskStatus idx.tasks t.id s) (Line.progress ph st note) =
          Line.progress ph (phaseProgress (setTaskStatus idx.tasks t.id s) ph)
            (progressNote (setTaskStatus idx.tasks t.id s) ph note)) := by
  simp only [setStatus] at h
  by_cases hc : (d.filter (matchesRow t.title t.file)).length = 1
  · rw [if_pos hc] at h
    simp only [SyncResult.mk.injEq, Option.some.injEq] at h
    obtain ⟨-, hdoc, -⟩ := h
    obtain ⟨l1, a, l2, hsplit, hpa, h1, h2⟩ := filter_length_one_split _ _ hc
    cases a with
    | row cb ti fi ho ac =>
      have hpa2 := hpa
      simp only [matchesRow, Bool.and_eq_true, beq_iff_eq] at hpa2
      obtain ⟨hti, hfi⟩ := hpa2
      subst hti
      subst hfi
      refine ⟨l1, l2, cb, ho, ac, hsplit, ?_, h1, h2, ?_, fun ph st note => rfl⟩
      · rw [← hdoc, hsplit, List.map_append, List.map_cons]
        rw [map_eq_self_of_fix _ l1 (fun x hx => by rw [if_neg (by simp [h1 x hx])])]
        rw [map_eq_self_of_fix _ l2 (fun x hx => by rw [if_neg (by simp [h2 x hx])])]
        rw [if_pos hpa]
        rw [List.map_append, List.map_cons]
        rfl
      · intro x hx
        cases x with
        | row cb2 ti2 fi2 ho2 ac2 => rfl
        | heading s2 => rfl
        | milestone s2 => rfl
        | progress ph2 st2 no2 => exact absurd rfl (hx ph2 st2 no2)
        | text s2 => rfl
    | heading s2 => simp [matchesRow] at hpa
    | milestone s2 => simp [matchesRow] at hpa
    | progress ph2 st2 no2 => simp [matchesRow] at hpa
    | text s2 => simp [matchesRow] at hpa
  · rw [if_neg hc] at h
    simp at h

/-- Counterexample to claim C4 as stated: a successful setStatus call on a
document holding a progress-tracking table row changes that row as well (its
status cell becomes done), so a line other than the single matching task row
is not byte-identical before and after. -/
theorem setStatus_frame_counterexample :
    (setStatus (some progressDoc) progressIndex progressTask Status.completed).ok = true ∧
    matchesRow progressTask.title progressTask.file
      (progressDoc.getD 2 (Line.text "")) = false ∧
    (setStatus (some progressDoc) progressIndex progressTask Status.completed).doc =
      some [Line.heading "Phase 1",
            Line.row "x" "Beta" "b.py" "2" "ok",
            Line.progress "Phase 1" "done" "note"] ∧
    ¬ (setStatus (some progressDoc) progressIndex progressTask Status.completed).doc =
      some [Line.heading "Phase 1",
            Line.row "x" "Beta" "b.py" "2" "ok",
            Line.progress "Phase 1" "not-started" "note"] := by
  decide

/-- Witness for claim C2: a concrete successful setStatus call whose resulting
counters satisfy the aggregate identity. -/
theorem setStatus_aggregates_witness :
    (setStatus (some sampleDoc) sampleIndex basicTask2 Status.completed).index.total =
      (setStatus (some sampleDoc) sampleIndex basicTask2 Status.completed).index.completed +
      (setStatus (some sampleDoc) sampleIndex basicTask2 Status.completed).index.in_progress +
      (setStatus (some sampleDoc) sampleIndex basicTask2 Status.completed).index.pending :=
  (setStatus_aggregates (some sampleDoc) sampleIndex basicTask2 Status.completed
    (setStatus (some sampleDoc) sampleIndex basicTask2 Status.completed).doc
    (setStatus (some sampleDoc) sampleIndex basicTask2 Status.completed).index
    (by decide)).1

/-- Witness for claim C3: a concrete setStatus call for a task whose
title/file pair appears nowhere in the document fails and leaves both the
document and the Task Index unchanged. -/
theorem setStatus_failure_witness :
    (setStatus (some sampleDoc) sampleIndex basicTask3 Status.completed).doc = some sampleDoc ∧
    (setStatus (some sampleDoc) sampleIndex basicTask3 Status.completed).index = sampleIndex :=
  (setStatus_failure (some sampleDoc) sampleIndex basicTask3 Status.completed).1 (by decide)

/-- Witness for claim C4: a concrete successful setStatus call patches exactly
the checkbox glyph of the matching row. -/
theorem setStatus_frame_witness :
    (setStatus (some sampleDoc) sampleIndex basicTask2 Status.completed).doc =
      some samplePatchedDoc := by
  obtain ⟨l1, l2, cb, ho, ac, h1, h2, h3, h4⟩ :=
    setStatus_frame sampleDoc sampleIndex basicTask2 Status.completed
      samplePatchedDoc
      (setStatus (some sampleDoc) sampleIndex basicTask2 Status.completed).index
      (by decide)
  decide

/-- Setting documented on an id present in the collection makes the stored
documented flag true. -/
theorem documentedOf_setDocumented (tasks : List Task) (id : String)
    (he : ∃ u ∈ tasks, u.id = id) :
    documentedOf (setDocumented tasks id) id = true := by
  induction tasks with
  | nil => simp at he
  | cons b bs ih =>
    by_cases hb : (b.id == id) = true
    · have hb2 : b.id = id := beq_iff_eq.mp hb
      simp only [setDocumented, documentedOf, findById]
      rw [List.map_cons, List.find?_cons, if_pos hb]
      have hbeq : (({ b with documented := true } : Task).id == id) = true := hb
      rw [hbeq]
    · have hb3 : (b.id == id) = false := by
        cases hval : (b.id == id)
        · rfl
        · exact absurd hval hb
      have he2 : ∃ u ∈ bs, u.id = id := by
        obtain ⟨u, hu, hid⟩ := he
        rcases List.mem_cons.mp hu with rfl | hu2
        · exact absurd (beq_iff_eq.mpr hid) hb
        · exact ⟨u, hu2, hid⟩
      have ih2 := ih he2
      simp only [setDocumented, documentedOf, findById] at ih2 ⊢
      rw [List.map_cons, List.find?_cons, if_neg hb, hb3]
      exact ih2

/-- A recordCompletion call on an already documented or already recorded task
is a no-op success. -/
theorem recordCompletion_noop_of (d0 : Document) (i0 : TaskIndex) (t : Task)
    (h : documentedOf i0.tasks t.id = true ∨ d0.any (isMarkerLine t) = true) :
    recordCompletion d0 i0 t = ⟨true, d0, i0⟩ := by
  unfold recordCompletion
  rcases h with h | h <;> simp [h]

/-- Claim C5: recordCompletion is idempotent: from a state with no completion
entry for the task and documented false, one call produces exactly one marker
line and documented true, a second call is a no-op returning the same state,
and any call with documented already true or the marker already present is a
no-op success. -/
theorem recordCompletion_idempotent (d : Document) (idx : TaskIndex) (t : Task)
    (hm : d.any (isMarkerLine t) = false)
    (hd : documentedOf idx.tasks t.id = false)
    (he : ∃ u ∈ idx.tasks, u.id = t.id) :
    (recordCompletion d idx t).ok = true ∧
    (((recordCompletion d idx t).doc).filter (isMarkerLine t)).length = 1 ∧
    documentedOf (recordCompletion d idx t).index.tasks t.id = true ∧
    recordCompletion (recordCompletion d idx t).doc (recordCompletion d idx t).index t =
      ⟨true, (recordCompletion d idx t).doc, (recordCompletion d idx t).index⟩ ∧
    (∀ d0 i0, documentedOf i0.tasks t.id = true ∨ d0.any (isMarkerLine t) = true →
      recordCompletion d0 i0 t = ⟨true, d0, i0⟩) := by
  have hall : ∀ x ∈ d, isMarkerLine t x = false := by
    intro x hx
    by_contra hcon
    have hx2 : isMarkerLine t x = true := by
      cases hval : isMarkerLine t x
      · exact absurd hval hcon
      · rfl
    have : d.any (isMarkerLine t) = true := List.any_eq_true.mpr ⟨x, hx, hx2⟩
    rw [hm] at this
    cases this
  have hr : recordCompletion d idx t =
      ⟨true,
       d.take (insertionPoint d t.phase) ++ Line.text (marker t) :: d.drop (insertionPoint d t.phase),
       { idx with tasks := setDocumented idx.tasks t.id }⟩ := by
    unfold recordCompletion
    rw [hd, hm]
    rfl
  have hmarker : isMarkerLine t (Line.text (marker t)) = true := by
    simp [isMarkerLine]
  have hcount : (((recordCompletion d idx t).doc).filter (isMarkerLine t)).length = 1 := by
    rw [hr]
    show ((d.take (insertionPoint d t.phase) ++ Line.text (marker t) ::
      d.drop (insertionPoint d t.phase)).filter (isMarkerLine t)).length = 1
    rw [List.filter_append, List.filter_cons]
    rw [List.filter_eq_nil_iff.mpr (fun x hx => by
      simp [hall x (List.mem_of_mem_take hx)])]
    rw [List.filter_eq_nil_iff.mpr (fun x hx => by
      simp [hall x (List.mem_of_mem_drop hx)])]
    rw [hmarker]
    rfl
  have hdocd : documentedOf (recordCompletion d idx t).index.tasks t.id = true := by
    rw [hr]
    exact documentedOf_setDocumented idx.tasks t.id he
  refine ⟨by rw [hr], hcount, hdocd, ?_, fun d0 i0 h => recordCompletion_noop_of d0 i0 t h⟩
  have hsecond := recordCompletion_noop_of (recordCompletion d idx t).doc
    (recordCompletion d idx t).index t (Or.inl hdocd)
  rw [hsecond]

/-- Witness for claim C5: recording completion of task-001 against the sample
document and index yields success, exactly one marker line, and documented
true. -/
theorem recordCompletion_idempotent_witness :
    (recordCompletion sampleDoc sampleIndex basicTask1).ok = true ∧
    (((recordCompletion sampleDoc sampleIndex basicTask1).doc).filter
      (isMarkerLine basicTask1)).length = 1 ∧
    documentedOf (recordCompletion sampleDoc sampleIndex basicTask1).index.tasks
      basicTask1.id = true := by
  have h := recordCompletion_idempotent sampleDoc sampleIndex basicTask1 (by decide) (by decide)
    ⟨basicTask1, by decide, rfl⟩
  exact ⟨h.1, h.2.1, h.2.2.1⟩

/-- Claim C7: the parser maps the checkbox glyph of every parsed row to a
status with unchecked to pending, tilde to in_progress, x to completed and
any unrecognized glyph to pending, and a missing document parses to zero
tasks rather than raising. -/
theorem parser_status_map :
    parseTasks none = [] ∧
    parseStatus " " = Status.pending ∧
    parseStatus "~" = Status.in_progress ∧
    parseStatus "x" = Status.completed ∧
    (∀ g, g ≠ "x" → g ≠ "~" → parseStatus g = Status.pending) ∧
    (∀ d phase n, (parseLines d phase n).map Task.status = (rowGlyphs d).map parseStatus) := by
  refine ⟨rfl, rfl, rfl, rfl, ?_, ?_⟩
  · intro g hx ht
    unfold parseStatus
    rw [if_neg (by simpa using hx), if_neg (by simpa using ht)]
  · intro d
    induction d with
    | nil => intro phase n; rfl
    | cons l rest ih =>
      intro phase n
      cases l with
      | row cb ti fi ho ac => simp [parseLines, rowGlyphs, ih]
      | heading s => simp [parseLines, rowGlyphs, ih]
      | milestone s => simp [parseLines, rowGlyphs, ih]
      | progress ph st note => simp [parseLines, rowGlyphs, ih]
      | text s => simp [parseLines, rowGlyphs, ih]

/-- Witness for claim C7: an unrecognized glyph defaults to pending. -/
theorem parser_status_map_witness : parseStatus "?" = Status.pending :=
  parser_status_map.2.2.2.2.1 "?" (by decide) (by decide)

/-- Claim C8: Settings.get returns the nested value reached by following each
dot separated path segment through dictionaries, and the supplied default
whenever any segment is absent or an intermediate value is not a dictionary;
being a total function of the embedding it never raises for a missing path. -/
theorem Settings.get_correct (config : List (String × Value)) (key : String) (default : Value) :
    Settings.get config key default =
      (getPath (Value.vdict config) (key.splitOn ".")).getD default := by
  unfold Settings.get
  generalize Value.vdict config = v
  generalize key.splitOn "." = ks
  induction ks generalizing v with
  | nil => cases v <;> rfl
  | cons k ks ih =>
    cases v with
    | vdict d =>
      cases hdl : dictLookup d k with
      | some v2 =>
        simp only [getLoop, getPath, hdl]
        exact ih v2
      | none => simp only [getLoop, getPath, hdl, Option.getD_none]
    | vnull => rfl
    | vbool b => rfl
    | vint n => rfl
    | vstr s => rfl
    | vlist l => rfl

/-- Claim C9: for keys absent from the section data both attribute and item
access return None instead of raising KeyError; the only exception path is an
attribute name starting with an underscore, which raises AttributeError; and
present dictionary valued keys come back wrapped in a new section proxy. -/
theorem SectionProxy.access_correct (data : List (String × Value)) (name : String) :
    (startsWithUnderscore name = true →
      SectionProxy.getattr data name = ProxyVal.attrError) ∧
    (startsWithUnderscore name = false → dictLookup data name = none →
      SectionProxy.getattr data name = ProxyVal.val Value.vnull) ∧
    (dictLookup data name = none →
      SectionProxy.getitem data name = ProxyVal.val Value.vnull) ∧
    (∀ d, startsWithUnderscore name = false → dictLookup data name = some (Value.vdict d) →
      SectionProxy.getattr data name = ProxyVal.sub d) ∧
    (∀ d, dictLookup data name = some (Value.vdict d) →
      SectionProxy.getitem data name = ProxyVal.sub d) ∧
    (SectionProxy.getattr data name = ProxyVal.attrError →
      startsWithUnderscore name = true) ∧
    SectionProxy.getitem data name ≠ ProxyVal.attrError := by
  refine ⟨?_, ?_, ?_, ?_, ?_, ?_, ?_⟩
  · intro hu
    simp [SectionProxy.getattr, hu]
  · intro hu hn
    simp [SectionProxy.getattr, hu, hn]
  · intro hn
    simp [SectionProxy.getitem, hn]
  · intro d hu hd
    simp [SectionProxy.getattr, hu, hd]
  · intro d hd
    simp [SectionProxy.getitem, hd]
  · intro hres
    cases hu : startsWithUnderscore name with
    | true => rfl
    | false =>
      exfalso
      simp only [SectionProxy.getattr, hu] at hres
      cases hdl : dictLookup data name with
      | none => rw [hdl] at hres; simp at hres
      | some v => cases v <;> rw [hdl] at hres <;> simp at hres
  · intro hres
    unfold SectionProxy.getitem at hres
    cases hdl : dictLookup data name with
    | none => rw [hdl] at hres; simp at hres
    | some v => cases v <;> rw [hdl] at hres <;> simp at hres

/-- Witness for claim C9: a missing key gives None for attribute and item
access, an underscore attribute raises AttributeError, and a dictionary
valued key comes back wrapped. -/
theorem SectionProxy.access_correct_witness :
    SectionProxy.getattr sampleConfig "missing" = ProxyVal.val Value.vnull ∧
    SectionProxy.getitem sampleConfig "missing" = ProxyVal.val Value.vnull ∧
    SectionProxy.getattr sampleConfig "_private" = ProxyVal.attrError ∧
    SectionProxy.getitem sampleConfig "llm" =
      ProxyVal.sub [("provider", Value.vstr "azure")] := by
  refine ⟨?_, ?_, ?_, ?_⟩
  · exact (SectionProxy.access_correct sampleConfig "missing").2.1 rfl rfl
  · exact (SectionProxy.access_correct sampleConfig "missing").2.2.1 rfl
  · exact (SectionProxy.access_correct sampleConfig "_private").1 rfl
  · exact (SectionProxy.access_correct sampleConfig "llm").2.2.2.2.1 _ rfl

/-- Byte serialisation always yields the requested number of bytes. -/
theorem toBytesBE_length (k n : Nat) : (toBytesBE k n).length = k := by
  induction k generalizing n with
  | zero => rfl
  | succ k ih => simp [toBytesBE, ih]

/-- The compression function always returns an eight word state. -/
theorem compress_length (hs block : List Nat) : (compress hs block).length = 8 := rfl

/-- Folding the compression function over any block list keeps eight words. -/
theorem foldl_compress_length (blocks : List (List Nat)) (hs : List Nat) (h : hs.length = 8) :
    (blocks.foldl compress hs).length = 8 := by
  induction blocks generalizing hs with
  | nil => simpa using h
  | cons b bs ih => exact ih _ (compress_length hs b)

/-- A SHA-256 digest always holds eight words. -/
theorem sha256Words_length (msg : List Nat) : (sha256Words msg).length = 8 := by
  unfold sha256Words
  exact foldl_compress_length _ _ rfl

/-- Serialising a word list into bytes yields four bytes per word. -/
theorem flatten_toBytes_length (ws : List Nat) :
    ((ws.map (toBytesBE 4)).flatten).length = 4 * ws.length := by
  induction ws with
  | nil => rfl
  | cons w ws ih =>
    simp only [List.map_cons, List.flatten_cons, List.length_append, toBytesBE_length, ih,
      List.length_cons]
    omega

/-- Hex encoding a byte list yields two characters per byte. -/
theorem flatten_byteToHex_length (bs : List Nat) :
    ((bs.map byteToHex).flatten).length = 2 * bs.length := by
  induction bs with
  | nil => rfl
  | cons b bs ih =>
    simp only [List.map_cons, List.flatten_cons, byteToHex, List.length_append, ih,
      List.cons_append, List.nil_append, List.length_cons]
    omega

/-- The hex character of any nibble below sixteen is a hex digit. -/
theorem isHexDigitChar_hexChar (n : Nat) (h : n < 16) : isHexDigitChar (hexChar n) = true := by
  interval_cases n <;> decide

/-- Every character of a hex encoded byte list is a hex digit. -/
theorem all_hex_flatten (bs : List Nat) :
    (((bs.map byteToHex).flatten).all isHexDigitChar) = true := by
  induction bs with
  | nil => rfl
  | cons b bs ih =>
    simp only [List.map_cons, List.flatten_cons, byteToHex, List.cons_append, List.nil_append,
      List.all_cons, ih, Bool.and_true]
    rw [isHexDigitChar_hexChar _ (Nat.mod_lt _ (by decide)),
      isHexDigitChar_hexChar _ (Nat.mod_lt _ (by decide))]
    rfl

/-- Claim C10: a Chunk constructed without an explicit content hash gets the
SHA-256 hex digest of the UTF-8 encoding of its content: a string of exactly
64 lowercase hexadecimal characters; two such Chunks with equal content have
equal hashes regardless of metadata, and an explicitly supplied hash is kept
verbatim. -/
theorem Chunk.content_hash_correct (content : String) (metadata : ChunkMetadata) :
    (Chunk.make content metadata none).content_hash = sha256Hex (utf8Encode content) ∧
    (Chunk.make content metadata none).content_hash.length = 64 ∧
    ((Chunk.make content metadata none).content_hash.toList.all isHexDigitChar) = true ∧
    (∀ m1 m2 : ChunkMetadata,
      (Chunk.make content m1 none).content_hash = (Chunk.make content m2 none).content_hash) ∧
    (∀ h : String, (Chunk.make content metadata (some h)).content_hash = h) := by
  refine ⟨rfl, ?_, ?_, fun m1 m2 => rfl, fun h => rfl⟩
  · show (sha256Hex (utf8Encode content)).length = 64
    have hdef : (sha256Hex (utf8Encode content)).length =
        ((((sha256Words (utf8Encode content)).map (toBytesBE 4)).flatten.map
          byteToHex).flatten).length := rfl
    rw [hdef, flatten_byteToHex_length, flatten_toBytes_length, sha256Words_length]
  · show ((sha256Hex (utf8Encode content)).toList.all isHexDigitChar) = true
    have hdef : (sha256Hex (utf8Encode content)).toList =
        (((sha256Words (utf8Encode content)).map (toBytesBE 4)).flatten.map
          byteToHex).flatten := rfl
    rw [hdef]
    exact all_hex_flatten _

/-- The SHA-256 digest of the empty message matches the published test
vector, anchoring the hash embedding to hashlib.sha256 of the source. -/
theorem sha256Hex_empty :
    sha256Hex (utf8Encode "") =
      "e3b0c44298fc1c149afbf4c8996fb92427ae41e4649b934ca495991b7852b855" := by
  decide

/-- The SHA-256 digest of the message abc matches the published test vector,
anchoring the hash embedding to hashlib.sha256 of the source. -/
theorem sha256Hex_abc :
    sha256Hex (utf8Encode "abc") =
      "ba7816bf8f01cfea414140de5dae2223b00361a396177a9cb410ff61f20015ad" := by
  decide

end RagMcp
